import Mathlib

/-!
# Trace-context propagation (`trace_context.go`)

A shallow embedding of package `tracecontext` and proofs of its contract.

Conventions of the embedding

* A Go `string` is a Lean `String`; the empty string is `""`.
* A Go pointer `*TraceContext` is an `Option TraceContext`; `none` is the nil pointer.
* A Go `error` result is an `Option Error`; `none` is the nil error.
* A function that can panic at run time returns an `Option`; `none` is the panic.
* `http.Header` is a possibly-nil `map[string][]string`; an allocated map is a function
  from keys to the bound slice (`none` for an absent key).
* `context.Context` is a possibly-nil interface value; a non-nil context is the background
  context or a `context.WithValue` node over a parent.
* The package variable `NewID` is a Go `func() string`; it is passed explicitly as a state
  transformer `σ → String × σ` over the state `σ` the installed function closes over
  (for the default `newUUID`, the state of the random source).
-/

namespace TraceContext

/-! ## Data model -/

/-- Header name of the current hop identifier (`XCurrTid`). -/
def XCurrTid : String := "X-Curr-Tid"

/-- Header name of the previous hop identifier (`XPrevTid`). -/
def XPrevTid : String := "X-Prev-Tid"

/-- Header name of the entry identifier (`XEntryTid`). -/
def XEntryTid : String := "X-Entry-Tid"

/-- The errors of the package; `ErrInvalidTraceContext` is the only one. -/
inductive Error where
  | ErrInvalidTraceContext
  deriving DecidableEq, Repr

end TraceContext

/-- The struct `TraceContext`: the three identifiers of one hop. -/
structure TraceContext where
  PrevTid : String
  CurrTid : String
  EntryTid : String
  deriving DecidableEq, Repr

namespace TraceContext

/-- The zero value of the struct: all three fields empty. -/
def zero : TraceContext := { PrevTid := "", CurrTid := "", EntryTid := "" }

/-! ## `net/textproto`: canonical header keys -/

/-- The bytes allowed in a header field name (the token characters of RFC 7230): letters,
digits and the punctuation bytes listed here by code. -/
def validHeaderFieldByte (c : Char) : Bool :=
  c.isAlphanum || c.toNat ∈ [33, 35, 36, 37, 38, 39, 42, 43, 45, 46, 94, 95, 96, 124, 126]

/-- The case-folding loop of `canonicalMIMEHeaderKey`: upper case for the first letter and
for a letter after a dash, lower case elsewhere. -/
def canonicalLoop : Bool → List Char → List Char
  | _, [] => []
  | upper, c :: cs =>
    let c1 := if upper && c.isLower then c.toUpper
              else if !upper && c.isUpper then c.toLower
              else c
    c1 :: canonicalLoop (c1 == '-') cs

/-- The function `textproto.CanonicalMIMEHeaderKey`: a key holding a byte that is not allowed
in a field name (a space included) is returned unchanged, any other key is case-folded. -/
def CanonicalMIMEHeaderKey (s : String) : String :=
  if s.data.all validHeaderFieldByte then String.mk (canonicalLoop true s.data) else s

/-! ## `net/http`: header maps -/

/-- An allocated `map[string][]string`: the slice bound to each key, `none` when absent. -/
abbrev HeaderMap := String → Option (List String)

/-- The type `http.Header`: the nil map or an allocated map. -/
inductive Header where
  | nil
  | alloc (m : HeaderMap)

namespace Header

/-- The empty allocated map, `http.Header{}`. -/
def empty : Header := alloc (fun _ => none)

/-- The map index expression `h[k]` with presence: reading a nil map finds nothing. -/
def lookup : Header → String → Option (List String)
  | nil, _ => none
  | alloc m, k => m k

/-- The method `Header.Get`: the first value stored under the canonical form of `key`,
or `""` when the map is nil, the key is absent or its slice is empty. -/
def Get (h : Header) (key : String) : String :=
  match h with
  | nil => ""
  | alloc m =>
    match m (CanonicalMIMEHeaderKey key) with
    | some (v :: _) => v
    | _ => ""

/-- The method `Header.Set`: binds the canonical form of `key` to the one-element slice
`[value]`, replacing what was there. Assigning into a nil map panics. -/
def Set (h : Header) (key value : String) : Option Header :=
  match h with
  | nil => none
  | alloc m =>
    some (alloc (fun k => if k = CanonicalMIMEHeaderKey key then some [value] else m k))

end Header

/-! ## `context`: request-scoped carriers -/

/-- A context key: the package's private `key` (of the unexported type `contextKey`), or any
other comparable key, told apart by a name. -/
inductive Key where
  | key
  | other (name : String)
  deriving DecidableEq, Repr

/-- A value of type `any` stored in a context: the nil interface, a `*TraceContext`
(possibly a nil pointer), or a value of another dynamic type. -/
inductive Value where
  | nil
  | trace (p : Option TraceContext)
  | other (v : String)
  deriving DecidableEq, Repr

/-- A non-nil `context.Context`: the background context, or the result of
`context.WithValue(parent, key, val)`. -/
inductive Context where
  | background
  | withValue (parent : Context) (k0 : Key) (val : Value)
  deriving DecidableEq, Repr

/-- The method `Context.Value`: the value of the innermost binding of `k`, nil when none. -/
def Context.Value : Context → Key → Value
  | .background, _ => .nil
  | .withValue parent k0 val, k => if k0 = k then val else parent.Value k

/-- The function `context.WithValue`: it panics on a nil parent. -/
def WithValue (parent : Option Context) (k0 : Key) (val : Value) : Option Context :=
  match parent with
  | none => none
  | some p => some (.withValue p k0 val)

/-! ## The package's functions -/

/-- The method `(*TraceContext).IsValid`. -/
def IsValid (b : Option TraceContext) : Bool :=
  match b with
  | none => false
  | some b => b.CurrTid != "" && b.EntryTid != ""

/-- The method `(*TraceContext).SetHeader`, returning the header map after the call;
`none` when the call panics (nil receiver, or a write into a nil map). -/
def SetHeader (b : Option TraceContext) (h : Header) : Option Header :=
  match b with
  | none => none
  | some b => do
    let h1 ← if b.PrevTid != "" then h.Set XPrevTid b.PrevTid else pure h
    let h2 ← if b.EntryTid == "" then h1.Set XEntryTid b.CurrTid
             else h1.Set XEntryTid b.EntryTid
    h2.Set XCurrTid b.CurrTid

/-- The method `(*TraceContext).EmbedIntoContext`: the returned pair of carrier and error;
`none` when the call panics (a valid identity with a nil carrier). -/
def EmbedIntoContext (b : Option TraceContext) (ctx : Option Context) :
    Option (Option Context × Option Error) :=
  if !IsValid b then
    some (none, some Error.ErrInvalidTraceContext)
  else
    match WithValue ctx Key.key (Value.trace b) with
    | none => none
    | some c => some (some c, none)

/-- The function `GetTraceContext`: the type assertion to `*TraceContext` followed by the
validity check; `none` when the call panics (a nil carrier). -/
def GetTraceContext (ctx : Option Context) : Option (Option TraceContext × Bool) :=
  match ctx with
  | none => none
  | some c =>
    let (traceCtx, ok) : Option TraceContext × Bool :=
      match c.Value Key.key with
      | .trace p => (p, true)
      | _ => (none, false)
    some (traceCtx, ok && IsValid traceCtx)

/-- The function `MustGetTraceContext`; `none` when the call panics. -/
def MustGetTraceContext (ctx : Option Context) : Option (Option TraceContext) :=
  match GetTraceContext ctx with
  | none => none
  | some (traceContext, ok) => if !ok then none else some traceContext

/-- The function `ExtractTraceContextFromHeader`. -/
def ExtractTraceContextFromHeader (h : Header) : TraceContext :=
  let b := zero
  let b := { b with CurrTid := h.Get XCurrTid }
  let b := { b with PrevTid := h.Get XPrevTid }
  let b := { b with EntryTid := h.Get XEntryTid }
  b

/-- The function `NewTraceContext`, over the installed ID function `NewID` and its state:
the new identity and the state after the call. -/
def NewTraceContext {σ : Type} (NewID : σ → String × σ) (s : σ) : TraceContext × σ :=
  let (tid, s1) := NewID s
  ({ EntryTid := tid, CurrTid := tid, PrevTid := "" }, s1)

/-- The function `ChainTraceContext`, over the installed ID function `NewID` and its state:
the returned pair `(curr, err)` and the state after the call; `none` when the call panics
(a nil pointer dereference). -/
def ChainTraceContext {σ : Type} (NewID : σ → String × σ) (prev : Option TraceContext)
    (s : σ) : Option ((TraceContext × Option Error) × σ) :=
  let curr := zero
  if !IsValid prev then
    some ((curr, some Error.ErrInvalidTraceContext), s)
  else do
    let p ← prev
    let curr := { curr with EntryTid := p.EntryTid }
    let curr := { curr with PrevTid := p.CurrTid }
    let (id, s1) := NewID s
    let curr := { curr with CurrTid := id }
    pure ((curr, none), s1)

/-- An ID function instrumented with a count of its invocations, kept next to its state. -/
def counted {σ : Type} (NewID : σ → String × σ) : σ × Nat → String × (σ × Nat)
  | (s, n) => ((NewID s).1, ((NewID s).2, n + 1))

/-- The value the specification reads from a header entry: the first value of the slice
bound to the header name, and `""` when the header is missing or bound to no value. -/
def specHeaderValue : Option (List String) → String
  | some (v :: _) => v
  | _ => ""

/-- Whether a context holds a binding of the key `k` somewhere along its chain of
`context.WithValue` nodes. -/
def Context.binds : Context → Key → Bool
  | .background, _ => false
  | .withValue parent k0 _, k => k0 == k || parent.binds k

/-- A run of `n` chain calls, each on the identity the call before it returned, starting
from `c`: the identities returned, in order, and the state of the ID function at the end;
`none` as soon as a call panics or returns an error. -/
def chainSeq {σ : Type} (NewID : σ → String × σ) : Nat → TraceContext → σ →
    Option (List TraceContext × σ)
  | 0, _, s => some ([], s)
  | n + 1, c, s =>
    match ChainTraceContext NewID (some c) s with
    | some ((c1, none), s1) =>
      match chainSeq NewID n c1 s1 with
      | some (cs, s2) => some (c1 :: cs, s2)
      | none => none
    | _ => none

/-- The character the case-folding loop of `canonicalMIMEHeaderKey` writes for the
character `c` under the flag `upper`. -/
def foldChar (upper : Bool) (c : Char) : Char :=
  if upper && c.isLower then c.toUpper else if !upper && c.isUpper then c.toLower else c

/-- Letter-case variants: `k` is a variant of the header name `n` when the two are equal
after every ASCII capital letter is replaced by its small letter. -/
def caseVariant (k n : String) : Bool :=
  k.data.map Char.toLower == n.data.map Char.toLower

/-! ## Sample values -/

/-- An ID function for tests: it hands out the strings of a list in turn, then `""`. -/
def listID : List String → String × List String
  | [] => ("", [])
  | x :: xs => (x, xs)

/-- The root identity of the scenario: entry `A`, current `A`, no previous hop. -/
def rootA : TraceContext := { PrevTid := "", CurrTid := "A", EntryTid := "A" }

/-- The child identity of the scenario: entry `A`, current `B`, previous `A`. -/
def childB : TraceContext := { PrevTid := "A", CurrTid := "B", EntryTid := "A" }

/-- A header map holding the single entry `x-curr-tid: v`, stored under that lower-case key
directly (as by the Go map assignment `h["x-curr-tid"] = []string{"v"}`). -/
def lowerCurrHeader : Header :=
  Header.alloc (fun k => if k = "x-curr-tid" then some ["v"] else none)

/-- An allocated map holding a stale `X-Prev-Tid: old` entry, two earlier values of
`X-Curr-Tid` and an unrelated header. -/
def staleMap : HeaderMap := fun k =>
  if k = "X-Prev-Tid" then some ["old"]
  else if k = "X-Curr-Tid" then some ["c1", "c2"]
  else if k = "Accept" then some ["*"]
  else none

/-- A carrier with bindings under two other keys and none under the package's key. -/
def plainCtx : Context :=
  .withValue (.withValue .background (.other "user") (.other "u1")) (.other "trace")
    (.trace (some rootA))

/-! ## Canonical form of the three header names -/

theorem canonical_XCurrTid : CanonicalMIMEHeaderKey XCurrTid = XCurrTid := by decide

theorem canonical_XPrevTid : CanonicalMIMEHeaderKey XPrevTid = XPrevTid := by decide

theorem canonical_XEntryTid : CanonicalMIMEHeaderKey XEntryTid = XEntryTid := by decide

theorem canonical_lower_curr : CanonicalMIMEHeaderKey "x-curr-tid" = "X-Curr-Tid" := by decide

theorem canonical_space_unchanged : CanonicalMIMEHeaderKey "x curr-tid" = "x curr-tid" := by
  decide

theorem XPrevTid_ne_XEntryTid : XPrevTid ≠ XEntryTid := by decide

theorem XPrevTid_ne_XCurrTid : XPrevTid ≠ XCurrTid := by decide

theorem XEntryTid_ne_XCurrTid : XEntryTid ≠ XCurrTid := by decide

theorem XEntryTid_ne_XPrevTid : XEntryTid ≠ XPrevTid := by decide

theorem XCurrTid_ne_XPrevTid : XCurrTid ≠ XPrevTid := by decide

theorem XCurrTid_ne_XEntryTid : XCurrTid ≠ XEntryTid := by decide

/-! ## Validity -/

theorem isValid_some_iff (b : TraceContext) :
    IsValid (some b) = true ↔ b.EntryTid ≠ "" ∧ b.CurrTid ≠ "" := by
  simp [IsValid, and_comm]

theorem isValid_some_eq_false_iff (b : TraceContext) :
    IsValid (some b) = false ↔ b.EntryTid = "" ∨ b.CurrTid = "" := by
  rw [← Bool.not_eq_true, isValid_some_iff]
  tauto

/-- C1. Validity law: an identity is valid exactly when its entry and current identifiers
are both non-empty; replacing the previous identifier by any other string leaves validity
as it was; and the nil pointer is not valid. -/
theorem isValid_law :
    (∀ b : TraceContext, IsValid (some b) = true ↔ b.EntryTid ≠ "" ∧ b.CurrTid ≠ "") ∧
    (∀ (b : TraceContext) (prev : String),
      IsValid (some { b with PrevTid := prev }) = IsValid (some b)) ∧
    IsValid none = false :=
  ⟨isValid_some_iff, fun _ _ => rfl, rfl⟩

/-! ## Construction and chaining -/

theorem chain_valid {σ : Type} (NewID : σ → String × σ) (s : σ) (p : TraceContext)
    (hp : IsValid (some p) = true) :
    ChainTraceContext NewID (some p) s =
      some (({ PrevTid := p.CurrTid, CurrTid := (NewID s).1, EntryTid := p.EntryTid }, none),
        (NewID s).2) := by
  simp [ChainTraceContext, hp, zero]

theorem chain_invalid {σ : Type} (NewID : σ → String × σ) (s : σ) (p : Option TraceContext)
    (hp : IsValid p = false) :
    ChainTraceContext NewID p s = some ((zero, some Error.ErrInvalidTraceContext), s) := by
  simp [ChainTraceContext, hp]

/-- C2. Chain success: from a valid parent, with any ID function in any state, the call
returns (no panic) a nil error and the identity that keeps the parent's entry identifier,
takes the parent's current identifier as previous and the ID function's result as current;
the ID function has been stepped once. -/
theorem chain_success {σ : Type} (NewID : σ → String × σ) (s : σ) (p : TraceContext)
    (hp : IsValid (some p) = true) :
    ∃ c, ChainTraceContext NewID (some p) s = some ((c, none), (NewID s).2) ∧
      c.EntryTid = p.EntryTid ∧ c.PrevTid = p.CurrTid ∧ c.CurrTid = (NewID s).1 :=
  ⟨_, chain_valid NewID s p hp, rfl, rfl, rfl⟩

theorem chain_success_witness :
    IsValid (some rootA) = true ∧
    ∃ c, ChainTraceContext listID (some rootA) ["B"] = some ((c, none), (listID ["B"]).2) ∧
      c.EntryTid = rootA.EntryTid ∧ c.PrevTid = rootA.CurrTid ∧
      c.CurrTid = (listID ["B"]).1 :=
  ⟨by decide, chain_success listID ["B"] rootA (by decide)⟩

/-- C3. Chain failure: the call never panics, the nil parent included, and the error it
returns is `ErrInvalidTraceContext` exactly when the parent is invalid; for an invalid
parent the returned identity is the zero value and the ID function has not been invoked:
its state is the one before the call, and an invocation counter still shows the count
before the call. -/
theorem chain_failure {σ : Type} (NewID : σ → String × σ) (s : σ) (p : Option TraceContext) :
    (∃ r, ChainTraceContext NewID p s = some r ∧
      (r.1.2 = some Error.ErrInvalidTraceContext ↔ IsValid p = false)) ∧
    (IsValid p = false →
      ChainTraceContext NewID p s = some ((zero, some Error.ErrInvalidTraceContext), s) ∧
      ∀ n : Nat, ChainTraceContext (counted NewID) p (s, n) =
        some ((zero, some Error.ErrInvalidTraceContext), (s, n))) := by
  refine ⟨?_, fun hp => ⟨chain_invalid NewID s p hp, fun n => chain_invalid _ _ p hp⟩⟩
  cases hv : IsValid p
  · exact ⟨_, chain_invalid NewID s p hv, by simp⟩
  · cases p with
    | none => simp [IsValid] at hv
    | some q => exact ⟨_, chain_valid NewID s q hv, by simp⟩

theorem chain_failure_witness :
    IsValid none = false ∧
    ChainTraceContext listID none ["B"] =
      some ((zero, some Error.ErrInvalidTraceContext), ["B"]) ∧
    ChainTraceContext (counted listID) (some zero) (["B"], 7) =
      some ((zero, some Error.ErrInvalidTraceContext), (["B"], 7)) :=
  ⟨rfl, ((chain_failure listID ["B"] none).2 rfl).1,
    ((chain_failure listID ["B"] (some zero)).2 (by decide)).2 7⟩

/-- C4. Root law: with any ID function in any state, the new root has its entry and current
identifiers both equal to the result of one invocation of the ID function and an empty
previous identifier; the ID function has been stepped exactly once (an invocation counter
goes up by one). -/
theorem root_law {σ : Type} (NewID : σ → String × σ) (s : σ) :
    NewTraceContext NewID s =
      ({ PrevTid := "", CurrTid := (NewID s).1, EntryTid := (NewID s).1 }, (NewID s).2) ∧
    (NewTraceContext NewID s).1.EntryTid = (NewTraceContext NewID s).1.CurrTid ∧
    (NewTraceContext NewID s).1.PrevTid = "" ∧
    ∀ n : Nat, (NewTraceContext (counted NewID) (s, n)).2.2 = n + 1 :=
  ⟨rfl, rfl, rfl, fun _ => rfl⟩

theorem root_valid_iff {σ : Type} (NewID : σ → String × σ) (s : σ) :
    IsValid (some (NewTraceContext NewID s).1) = true ↔ (NewID s).1 ≠ "" := by
  simp [NewTraceContext, IsValid]

/-- C5, as stated, fails: with an ID function that returns the empty string the new root is
not valid, and neither is the child chained from the valid parent `rootA`. -/
theorem constructed_valid_counterexample :
    IsValid (some (NewTraceContext listID []).1) = false ∧
    IsValid (some rootA) = true ∧
    ChainTraceContext listID (some rootA) [] =
      some (({ PrevTid := "A", CurrTid := "", EntryTid := "A" }, none), []) ∧
    IsValid (some { PrevTid := "A", CurrTid := "", EntryTid := "A" }) = false := by
  decide

/-- C5, amended. With any ID function, in a state where the identifier it returns is
non-empty, the new root is valid, and from a valid parent the chain call returns a nil error
and a valid child. -/
theorem constructed_valid {σ : Type} (NewID : σ → String × σ) (s : σ) (p : TraceContext)
    (hid : (NewID s).1 ≠ "") (hp : IsValid (some p) = true) :
    IsValid (some (NewTraceContext NewID s).1) = true ∧
    ∃ c s1, ChainTraceContext NewID (some p) s = some ((c, none), s1) ∧
      IsValid (some c) = true := by
  refine ⟨(root_valid_iff NewID s).2 hid, _, _, chain_valid NewID s p hp, ?_⟩
  have h := (isValid_some_iff p).1 hp
  simp [IsValid, h.1, hid]

theorem constructed_valid_witness :
    (listID ["B"]).1 ≠ "" ∧ IsValid (some rootA) = true ∧
    IsValid (some (NewTraceContext listID ["B"]).1) = true ∧
    ∃ c s1, ChainTraceContext listID (some rootA) ["B"] = some ((c, none), s1) ∧
      IsValid (some c) = true :=
  ⟨by decide, by decide, constructed_valid listID ["B"] rootA (by decide) (by decide)⟩

/-! ## Header maps -/

theorem get_eq_specHeaderValue (h : Header) (k : String) (hk : CanonicalMIMEHeaderKey k = k) :
    h.Get k = specHeaderValue (h.lookup k) := by
  cases h with
  | nil => rfl
  | alloc m =>
    simp only [Header.Get, Header.lookup, hk]
    cases hm : m k with
    | none => rfl
    | some vs => cases vs <;> rfl

theorem extract_eq (h : Header) :
    ExtractTraceContextFromHeader h =
      { CurrTid := specHeaderValue (h.lookup XCurrTid), PrevTid := specHeaderValue (h.lookup XPrevTid),
        EntryTid := specHeaderValue (h.lookup XEntryTid) } := by
  simp [ExtractTraceContextFromHeader, get_eq_specHeaderValue, canonical_XCurrTid,
    canonical_XPrevTid, canonical_XEntryTid]

/-- The header map left by `SetHeader` on an allocated map, key by key. -/
theorem setHeader_alloc (b : TraceContext) (m : HeaderMap) :
    SetHeader (some b) (Header.alloc m) =
      some (Header.alloc (fun k =>
        if k = XCurrTid then some [b.CurrTid]
        else if k = XEntryTid then some [if b.EntryTid = "" then b.CurrTid else b.EntryTid]
        else if k = XPrevTid then (if b.PrevTid = "" then m k else some [b.PrevTid])
        else m k)) := by
  by_cases hp : b.PrevTid = "" <;> by_cases he : b.EntryTid = "" <;>
    simp [SetHeader, Header.Set, hp, he, canonical_XCurrTid, canonical_XPrevTid,
      canonical_XEntryTid]

theorem setHeader_nil_receiver (h : Header) : SetHeader none h = none := rfl

theorem setHeader_nil_map (b : TraceContext) : SetHeader (some b) Header.nil = none := by
  by_cases hp : b.PrevTid = "" <;> by_cases he : b.EntryTid = "" <;>
    simp [SetHeader, Header.Set, hp, he]

/-- C6. Marshal rules: for every identity and every allocated header map, `SetHeader`
returns, and in the map it leaves `X-Curr-Tid` is bound to exactly the one value `CurrTid`;
`X-Entry-Tid` is bound to exactly the one value `EntryTid` when that is non-empty and
`CurrTid` when it is empty; and `X-Prev-Tid` is bound to exactly the one value `PrevTid`
when that is non-empty. For a valid identity both `X-Curr-Tid` and `X-Entry-Tid` are
therefore present with one non-empty value each. -/
theorem setHeader_marshal (b : TraceContext) (m : HeaderMap) :
    ∃ h1, SetHeader (some b) (Header.alloc m) = some h1 ∧
      h1.lookup XCurrTid = some [b.CurrTid] ∧
      (b.EntryTid ≠ "" → h1.lookup XEntryTid = some [b.EntryTid]) ∧
      (b.EntryTid = "" → h1.lookup XEntryTid = some [b.CurrTid]) ∧
      (b.PrevTid ≠ "" → h1.lookup XPrevTid = some [b.PrevTid]) ∧
      (IsValid (some b) = true →
        ∃ c e, h1.lookup XCurrTid = some [c] ∧ h1.lookup XEntryTid = some [e] ∧
          c ≠ "" ∧ e ≠ "") := by
  refine ⟨_, setHeader_alloc b m, ?_, ?_, ?_, ?_, ?_⟩
  · simp [Header.lookup]
  · intro he
    simp [Header.lookup, he, XEntryTid_ne_XCurrTid]
  · intro he
    simp [Header.lookup, he, XEntryTid_ne_XCurrTid]
  · intro hp
    simp [Header.lookup, hp, XPrevTid_ne_XCurrTid, XPrevTid_ne_XEntryTid]
  · intro hv
    have h := (isValid_some_iff b).1 hv
    exact ⟨b.CurrTid, b.EntryTid, by simp [Header.lookup],
      by simp [Header.lookup, h.1, XEntryTid_ne_XCurrTid], h.2, h.1⟩

theorem setHeader_marshal_witness :
    childB.EntryTid ≠ "" ∧ childB.PrevTid ≠ "" ∧ IsValid (some childB) = true ∧
    ∃ h1, SetHeader (some childB) Header.empty = some h1 ∧
      h1.lookup XCurrTid = some ["B"] ∧ h1.lookup XEntryTid = some ["A"] ∧
      h1.lookup XPrevTid = some ["A"] ∧
      ∃ c e, h1.lookup XCurrTid = some [c] ∧ h1.lookup XEntryTid = some [e] ∧
        c ≠ "" ∧ e ≠ "" := by
  obtain ⟨h1, hs, hc, he, _, hp, hv⟩ := setHeader_marshal childB (fun _ => none)
  exact ⟨by decide, by decide, by decide, h1, hs, hc, he (by decide), hp (by decide),
    hv (by decide)⟩

/-- C7. Parse: `ExtractTraceContextFromHeader` is total on header maps, the nil map
included, and returns the identity whose `CurrTid`, `PrevTid` and `EntryTid` are the first
values bound to `X-Curr-Tid`, `X-Prev-Tid` and `X-Entry-Tid` in the map, with `""` for each
header that is missing; on the empty map it returns the all-empty identity, which is
invalid. -/
theorem extract_parse (h : Header) :
    ExtractTraceContextFromHeader h =
      { CurrTid := specHeaderValue (h.lookup XCurrTid), PrevTid := specHeaderValue (h.lookup XPrevTid),
        EntryTid := specHeaderValue (h.lookup XEntryTid) } ∧
    ExtractTraceContextFromHeader Header.empty =
      { CurrTid := "", PrevTid := "", EntryTid := "" } ∧
    IsValid (some (ExtractTraceContextFromHeader Header.empty)) = false :=
  ⟨extract_eq h, by decide, by decide⟩

/-- C8. Round-trip: writing any identity into the empty header map and parsing the result
gives back its `CurrTid` and `PrevTid`, and its `EntryTid` when that is non-empty (its
`CurrTid` when `EntryTid` is empty); for a valid identity the parsed identity is the
identity written. -/
theorem roundtrip (i : TraceContext) :
    ∃ h1, SetHeader (some i) Header.empty = some h1 ∧
      (ExtractTraceContextFromHeader h1).CurrTid = i.CurrTid ∧
      (ExtractTraceContextFromHeader h1).PrevTid = i.PrevTid ∧
      (i.EntryTid ≠ "" → (ExtractTraceContextFromHeader h1).EntryTid = i.EntryTid) ∧
      (i.EntryTid = "" → (ExtractTraceContextFromHeader h1).EntryTid = i.CurrTid) ∧
      (IsValid (some i) = true → ExtractTraceContextFromHeader h1 = i) := by
  refine ⟨_, setHeader_alloc i (fun _ => none), ?_, ?_, ?_, ?_, ?_⟩
  · simp [extract_eq, Header.lookup, specHeaderValue]
  · by_cases hp : i.PrevTid = "" <;>
      simp [extract_eq, Header.lookup, specHeaderValue, hp, XPrevTid_ne_XCurrTid,
        XPrevTid_ne_XEntryTid]
  · intro he
    simp [extract_eq, Header.lookup, specHeaderValue, he, XEntryTid_ne_XCurrTid]
  · intro he
    simp [extract_eq, Header.lookup, specHeaderValue, he, XEntryTid_ne_XCurrTid]
  · intro hv
    have h := (isValid_some_iff i).1 hv
    cases i with
    | mk prev curr entry =>
      by_cases hp : prev = "" <;>
        simp_all [extract_eq, Header.lookup, specHeaderValue, XPrevTid_ne_XCurrTid,
          XPrevTid_ne_XEntryTid, XEntryTid_ne_XCurrTid]

theorem roundtrip_witness :
    rootA.EntryTid ≠ "" ∧ IsValid (some rootA) = true ∧
    ∃ h1, SetHeader (some rootA) Header.empty = some h1 ∧
      (ExtractTraceContextFromHeader h1).EntryTid = rootA.EntryTid ∧
      ExtractTraceContextFromHeader h1 = rootA := by
  obtain ⟨h1, hs, _, _, he, _, hv⟩ := roundtrip rootA
  exact ⟨by decide, by decide, h1, hs, he (by decide), hv (by decide)⟩

/-- C9. Header omission: an identity with an empty `PrevTid`, written into the empty header
map, leaves a map with no `X-Prev-Tid` entry at all, whose keys are exactly `X-Curr-Tid` and
`X-Entry-Tid`; and parsing any header map that has no `X-Prev-Tid` entry gives an empty
`PrevTid`. -/
theorem header_omission (b : TraceContext) (h : Header) (hb : b.PrevTid = "")
    (hh : h.lookup XPrevTid = none) :
    (∃ h1, SetHeader (some b) Header.empty = some h1 ∧
      h1.lookup XPrevTid = none ∧
      ∀ k, h1.lookup k ≠ none ↔ (k = XCurrTid ∨ k = XEntryTid)) ∧
    (ExtractTraceContextFromHeader h).PrevTid = "" := by
  refine ⟨⟨_, setHeader_alloc b (fun _ => none), ?_, ?_⟩, ?_⟩
  · simp [Header.lookup, hb, XPrevTid_ne_XCurrTid, XPrevTid_ne_XEntryTid]
  · intro k
    by_cases h1 : k = XCurrTid <;> by_cases h2 : k = XEntryTid <;>
      simp [Header.lookup, hb, h1, h2, XEntryTid_ne_XCurrTid]
  · simp [extract_eq, hh, specHeaderValue]

theorem header_omission_witness :
    rootA.PrevTid = "" ∧ Header.empty.lookup XPrevTid = none ∧
    (∃ h1, SetHeader (some rootA) Header.empty = some h1 ∧
      h1.lookup XPrevTid = none ∧
      ∀ k, h1.lookup k ≠ none ↔ (k = XCurrTid ∨ k = XEntryTid)) ∧
    (ExtractTraceContextFromHeader Header.empty).PrevTid = "" :=
  ⟨rfl, rfl, header_omission rootA Header.empty rfl rfl⟩

/-! ## Carrier binding -/

theorem embed_invalid (b : Option TraceContext) (ctx : Option Context)
    (hb : IsValid b = false) :
    EmbedIntoContext b ctx = some (none, some Error.ErrInvalidTraceContext) := by
  simp [EmbedIntoContext, hb]

theorem embed_valid (b : Option TraceContext) (c : Context) (hb : IsValid b = true) :
    EmbedIntoContext b (some c) =
      some (some (Context.withValue c Key.key (Value.trace b)), none) := by
  simp [EmbedIntoContext, hb, WithValue]

theorem embed_valid_nil_carrier (b : Option TraceContext) (hb : IsValid b = true) :
    EmbedIntoContext b none = none := by
  simp [EmbedIntoContext, hb, WithValue]

/-- C10. Embed error: for every receiver, the nil pointer included, and every carrier, the
nil carrier included, an invalid receiver makes the call return (no panic) the nil carrier
with the error `ErrInvalidTraceContext`; whenever the call returns, its error is
`ErrInvalidTraceContext` exactly when the receiver is invalid, the carrier returned with
that error is nil, and any other return has a nil error; and a valid receiver with a
non-nil carrier returns the derived carrier with a nil error. -/
theorem embed_error (b : Option TraceContext) (ctx : Option Context) :
    (IsValid b = false →
      EmbedIntoContext b ctx = some (none, some Error.ErrInvalidTraceContext)) ∧
    (∀ r, EmbedIntoContext b ctx = some r →
      (r.2 = some Error.ErrInvalidTraceContext ↔ IsValid b = false) ∧
      (r.2 = some Error.ErrInvalidTraceContext → r.1 = none) ∧
      (r.2 ≠ some Error.ErrInvalidTraceContext → r.2 = none)) ∧
    (IsValid b = true → ∀ c, ctx = some c →
      EmbedIntoContext b ctx =
        some (some (Context.withValue c Key.key (Value.trace b)), none)) := by
  refine ⟨embed_invalid b ctx, ?_, fun hb c hc => hc ▸ embed_valid b c hb⟩
  intro r hr
  cases hv : IsValid b
  · rw [embed_invalid b ctx hv] at hr
    cases hr
    simp
  · cases ctx with
    | none => rw [embed_valid_nil_carrier b hv] at hr; cases hr
    | some c =>
      rw [embed_valid b c hv] at hr
      cases hr
      simp

theorem embed_error_witness :
    IsValid none = false ∧ IsValid (some rootA) = true ∧
    EmbedIntoContext none (some Context.background) =
      some (none, some Error.ErrInvalidTraceContext) ∧
    EmbedIntoContext (some rootA) (some Context.background) =
      some (some (Context.withValue Context.background Key.key (Value.trace (some rootA))),
        none) :=
  ⟨rfl, by decide, (embed_error none (some Context.background)).1 rfl,
    (embed_error (some rootA) (some Context.background)).2.2 (by decide) _ rfl⟩

theorem getTraceContext_nil_carrier : GetTraceContext none = none := rfl

theorem getTraceContext_embedded (c : Context) (b : Option TraceContext) :
    GetTraceContext (some (Context.withValue c Key.key (Value.trace b))) =
      some (b, IsValid b) := by
  simp [GetTraceContext, Context.Value]

theorem value_of_not_binds (c : Context) (k : Key) (h : c.binds k = false) :
    c.Value k = Value.nil := by
  induction c with
  | background => rfl
  | withValue parent k0 val ih =>
    simp only [Context.binds, Bool.or_eq_false_iff, beq_eq_false_iff_ne, ne_eq] at h
    simp [Context.Value, h.1, ih h.2]

theorem getTraceContext_ok_iff (c : Context) :
    ∃ t ok, GetTraceContext (some c) = some (t, ok) ∧
      (ok = true ↔ ∃ i, c.Value Key.key = Value.trace (some i) ∧ IsValid (some i) = true) ∧
      (ok = true → c.Value Key.key = Value.trace t ∧ IsValid t = true) := by
  cases hv : c.Value Key.key with
  | nil => exact ⟨none, false, by simp [GetTraceContext, hv], by simp, by simp⟩
  | other v => exact ⟨none, false, by simp [GetTraceContext, hv], by simp, by simp⟩
  | trace p =>
    refine ⟨p, IsValid p, by simp [GetTraceContext, hv], ?_, fun h => ⟨rfl, h⟩⟩
    cases p with
    | none => simp [IsValid]
    | some i => simp

/-- C11. Embed/retrieve law: for a valid identity and any non-nil carrier, whatever it
already binds, `EmbedIntoContext` returns a carrier with a nil error; and whenever
`EmbedIntoContext` on a valid identity returns a carrier with a nil error,
`GetTraceContext` on that carrier returns that identity with `ok = true`. -/
theorem embed_retrieve (i : TraceContext) (c : Context) (hi : IsValid (some i) = true) :
    (∃ c1, EmbedIntoContext (some i) (some c) = some (some c1, none) ∧
      GetTraceContext (some c1) = some (some i, true)) ∧
    (∀ ctx ctx1, EmbedIntoContext (some i) ctx = some (ctx1, none) →
      GetTraceContext ctx1 = some (some i, true)) := by
  refine ⟨⟨_, embed_valid (some i) c hi, ?_⟩, ?_⟩
  · rw [getTraceContext_embedded, hi]
  · intro ctx ctx1 h
    cases ctx with
    | none => rw [embed_valid_nil_carrier (some i) hi] at h; cases h
    | some c0 =>
      rw [embed_valid (some i) c0 hi] at h
      cases h
      rw [getTraceContext_embedded, hi]

theorem embed_retrieve_witness :
    IsValid (some childB) = true ∧
    ∃ c1, EmbedIntoContext (some childB) (some plainCtx) = some (some c1, none) ∧
      GetTraceContext (some c1) = some (some childB, true) :=
  ⟨by decide, (embed_retrieve childB plainCtx (by decide)).1⟩

/-- C12. Retrieve absence: on every non-nil carrier `GetTraceContext` returns (no panic),
with `ok = true` exactly when a `*TraceContext` is bound under the package's key and the
identity it points to is valid; `ok = false` when nothing is bound under that key, whatever
other keys are bound, when the bound pointer is nil, and when the bound identity is not
valid. -/
theorem retrieve_absence (c : Context) :
    ∃ t ok, GetTraceContext (some c) = some (t, ok) ∧
      (ok = true ↔ ∃ i, c.Value Key.key = Value.trace (some i) ∧ IsValid (some i) = true) ∧
      (c.binds Key.key = false → ok = false) ∧
      (c.Value Key.key = Value.trace none → ok = false) ∧
      (∀ i, c.Value Key.key = Value.trace (some i) → IsValid (some i) = false →
        ok = false) := by
  obtain ⟨t, ok, hg, hiff, _⟩ := getTraceContext_ok_iff c
  refine ⟨t, ok, hg, hiff, ?_, ?_, ?_⟩
  · intro hb
    rw [← Bool.not_eq_true, hiff, value_of_not_binds c Key.key hb]
    simp
  · intro hn
    rw [← Bool.not_eq_true, hiff, hn]
    simp
  · intro i hv hi
    rw [← Bool.not_eq_true, hiff, hv]
    simp [hi]

theorem retrieve_absence_witness :
    plainCtx.binds Key.key = false ∧
    GetTraceContext (some plainCtx) = some (none, false) ∧
    GetTraceContext (some (Context.withValue plainCtx Key.key (Value.trace none))) =
      some (none, false) ∧
    GetTraceContext (some (Context.withValue plainCtx Key.key (Value.trace (some zero)))) =
      some (some zero, false) ∧
    GetTraceContext (some (Context.withValue plainCtx Key.key (Value.trace (some rootA)))) =
      some (some rootA, true) := by
  obtain ⟨t, ok, hg, _, hb, _, _⟩ := retrieve_absence plainCtx
  have hok : ok = false := hb (by decide)
  subst hok
  exact ⟨by decide, by decide, by decide, by decide, by decide⟩

/-- C13. MustRetrieve: on every non-nil carrier `MustGetTraceContext` panics exactly when
`GetTraceContext` reports `ok = false`; otherwise it returns the identity
`GetTraceContext` returns, which is valid. It does not panic on a carrier returned by a
successful `EmbedIntoContext`: it returns the embedded identity. -/
theorem must_retrieve (c : Context) :
    (∃ t ok, GetTraceContext (some c) = some (t, ok) ∧
      (MustGetTraceContext (some c) = none ↔ ok = false) ∧
      (ok = true → MustGetTraceContext (some c) = some t ∧ IsValid t = true)) ∧
    (∀ b ctx c1, EmbedIntoContext b ctx = some (some c1, none) →
      MustGetTraceContext (some c1) = some b) := by
  constructor
  · obtain ⟨t, ok, hg, _, hv⟩ := getTraceContext_ok_iff c
    refine ⟨t, ok, hg, ?_, fun h => ⟨?_, (hv h).2⟩⟩
    · cases ok <;> simp [MustGetTraceContext, hg]
    · simp [MustGetTraceContext, hg, h]
  · intro b ctx c1 h
    cases hb : IsValid b
    · rw [embed_invalid b ctx hb] at h; cases h
    · cases ctx with
      | none => rw [embed_valid_nil_carrier b hb] at h; cases h
      | some c0 =>
        rw [embed_valid b c0 hb] at h
        cases h
        simp [MustGetTraceContext, getTraceContext_embedded, hb]

theorem must_retrieve_witness :
    EmbedIntoContext (some rootA) (some plainCtx) =
      some (some (Context.withValue plainCtx Key.key (Value.trace (some rootA))), none) ∧
    MustGetTraceContext
      (some (Context.withValue plainCtx Key.key (Value.trace (some rootA)))) =
      some (some rootA) ∧
    MustGetTraceContext (some plainCtx) = none :=
  ⟨by decide, (must_retrieve plainCtx).2 (some rootA) (some plainCtx) _ (by decide),
    by decide⟩

/-- C20. Embedding shadows without disturbing the parent carrier: for valid identities `i`
and `j` and any non-nil carrier `c`, embedding `i` in `c` returns a new carrier `c1` built
over `c`, and embedding `j` in `c1` returns a new carrier `c2` built over `c1`;
`GetTraceContext` returns `(j, true)` on `c2` and `(i, true)` on `c1`; `c` itself is the
unchanged parent, and every key other than the package's key has the same value in `c`,
`c1` and `c2`. -/
theorem embed_shadows (i j : TraceContext) (c : Context) (hi : IsValid (some i) = true)
    (hj : IsValid (some j) = true) :
    ∃ c1 c2, EmbedIntoContext (some i) (some c) = some (some c1, none) ∧
      EmbedIntoContext (some j) (some c1) = some (some c2, none) ∧
      GetTraceContext (some c2) = some (some j, true) ∧
      GetTraceContext (some c1) = some (some i, true) ∧
      c1 = Context.withValue c Key.key (Value.trace (some i)) ∧
      c2 = Context.withValue c1 Key.key (Value.trace (some j)) ∧
      ∀ k, k ≠ Key.key → c1.Value k = c.Value k ∧ c2.Value k = c.Value k := by
  refine ⟨_, _, embed_valid (some i) c hi, embed_valid (some j) _ hj, ?_, ?_, rfl, rfl, ?_⟩
  · rw [getTraceContext_embedded, hj]
  · rw [getTraceContext_embedded, hi]
  · intro k hk
    simp [Context.Value, Ne.symm hk]

theorem embed_shadows_witness :
    IsValid (some rootA) = true ∧ IsValid (some childB) = true ∧
    ∃ c1 c2, EmbedIntoContext (some rootA) (some plainCtx) = some (some c1, none) ∧
      EmbedIntoContext (some childB) (some c1) = some (some c2, none) ∧
      GetTraceContext (some c2) = some (some childB, true) ∧
      GetTraceContext (some c1) = some (some rootA, true) ∧
      c1 = Context.withValue plainCtx Key.key (Value.trace (some rootA)) ∧
      c2 = Context.withValue c1 Key.key (Value.trace (some childB)) ∧
      ∀ k, k ≠ Key.key → c1.Value k = plainCtx.Value k ∧ c2.Value k = plainCtx.Value k :=
  ⟨by decide, by decide, embed_shadows rootA childB plainCtx (by decide) (by decide)⟩

/-! ## Hops -/

/-- C14. Hop scenario, generalised: for a valid parent `r` and any ID function, the chain
call returns a child `c`; writing `c` into the empty header map leaves exactly the three
entries `X-Curr-Tid: c.CurrTid`, `X-Entry-Tid: r.EntryTid` and `X-Prev-Tid: r.CurrTid`; and
parsing that map gives `c` back. -/
theorem hop_scenario {σ : Type} (NewID : σ → String × σ) (s : σ) (r : TraceContext)
    (hr : IsValid (some r) = true) :
    ∃ c s1 h1, ChainTraceContext NewID (some r) s = some ((c, none), s1) ∧
      SetHeader (some c) Header.empty = some h1 ∧
      (∀ k, h1.lookup k =
        if k = XCurrTid then some [c.CurrTid]
        else if k = XEntryTid then some [r.EntryTid]
        else if k = XPrevTid then some [r.CurrTid]
        else none) ∧
      ExtractTraceContextFromHeader h1 = c := by
  have h := (isValid_some_iff r).1 hr
  refine ⟨_, _, _, chain_valid NewID s r hr, setHeader_alloc _ _, ?_, ?_⟩
  · intro k
    simp [Header.lookup, h.1, h.2]
  · simp [extract_eq, Header.lookup, specHeaderValue, h.1, h.2, XPrevTid_ne_XCurrTid,
      XPrevTid_ne_XEntryTid, XEntryTid_ne_XCurrTid]

theorem hop_scenario_witness :
    IsValid (some rootA) = true ∧
    ChainTraceContext listID (some rootA) ["B"] = some ((childB, none), []) ∧
    ∃ c s1 h1, ChainTraceContext listID (some rootA) ["B"] = some ((c, none), s1) ∧
      SetHeader (some c) Header.empty = some h1 ∧
      (∀ k, h1.lookup k =
        if k = XCurrTid then some [c.CurrTid]
        else if k = XEntryTid then some [rootA.EntryTid]
        else if k = XPrevTid then some [rootA.CurrTid]
        else none) ∧
      ExtractTraceContextFromHeader h1 = c :=
  ⟨by decide, by decide, hop_scenario listID ["B"] rootA (by decide)⟩

theorem reparse_after_setHeader (i : TraceContext) (m : HeaderMap) :
    ∃ h1, SetHeader (some i) (Header.alloc m) = some h1 ∧
      (ExtractTraceContextFromHeader h1).CurrTid = i.CurrTid ∧
      (ExtractTraceContextFromHeader h1).EntryTid =
        (if i.EntryTid = "" then i.CurrTid else i.EntryTid) ∧
      (ExtractTraceContextFromHeader h1).PrevTid =
        (if i.PrevTid = "" then specHeaderValue (m XPrevTid) else i.PrevTid) := by
  refine ⟨_, setHeader_alloc i m, ?_, ?_, ?_⟩
  · simp [extract_eq, Header.lookup, specHeaderValue]
  · simp [extract_eq, Header.lookup, specHeaderValue, XEntryTid_ne_XCurrTid]
  · by_cases hp : i.PrevTid = "" <;>
      simp [extract_eq, Header.lookup, specHeaderValue, hp, XPrevTid_ne_XCurrTid,
        XPrevTid_ne_XEntryTid]

/-- C15, as stated, fails: the all-empty identity has an empty `EntryTid`, and parsing the
headers `SetHeader` wrote for it into the empty map gives the all-empty identity, which is
not valid. -/
theorem fallback_reparse_counterexample :
    zero.EntryTid = "" ∧
    (SetHeader (some zero) Header.empty).map ExtractTraceContextFromHeader = some zero ∧
    IsValid (some zero) = false := by
  decide

/-- C15, amended. For every identity with an empty `EntryTid` and a non-empty `CurrTid`,
written by `SetHeader` into any allocated header map, parsing the map gives an identity
whose `EntryTid` and `CurrTid` are both that `CurrTid`, and which is valid. -/
theorem fallback_reparse (i : TraceContext) (m : HeaderMap) (he : i.EntryTid = "")
    (hc : i.CurrTid ≠ "") :
    ∃ h1, SetHeader (some i) (Header.alloc m) = some h1 ∧
      (ExtractTraceContextFromHeader h1).EntryTid = i.CurrTid ∧
      (ExtractTraceContextFromHeader h1).CurrTid = i.CurrTid ∧
      IsValid (some (ExtractTraceContextFromHeader h1)) = true := by
  obtain ⟨h1, hs, h2, h3, _⟩ := reparse_after_setHeader i m
  rw [if_pos he] at h3
  exact ⟨h1, hs, h3, h2, (isValid_some_iff _).2 ⟨by rw [h3]; exact hc, by rw [h2]; exact hc⟩⟩

theorem fallback_reparse_witness :
    ({ PrevTid := "", CurrTid := "B", EntryTid := "" } : TraceContext).EntryTid = "" ∧
    ({ PrevTid := "", CurrTid := "B", EntryTid := "" } : TraceContext).CurrTid ≠ "" ∧
    ∃ h1, SetHeader (some { PrevTid := "", CurrTid := "B", EntryTid := "" })
        (Header.alloc (fun _ => none)) = some h1 ∧
      (ExtractTraceContextFromHeader h1).EntryTid = "B" ∧
      (ExtractTraceContextFromHeader h1).CurrTid = "B" ∧
      IsValid (some (ExtractTraceContextFromHeader h1)) = true :=
  ⟨rfl, by decide,
    fallback_reparse { PrevTid := "", CurrTid := "B", EntryTid := "" } (fun _ => none) rfl
      (by decide)⟩

/-- C17, as stated, fails: with an ID function that returns `A`, the child chained from the
valid parent `rootA`, whose current identifier is `A`, has the current identifier `A` too,
equal to the parent's and to its own previous identifier. -/
theorem chain_freshness_counterexample :
    IsValid (some rootA) = true ∧
    ChainTraceContext listID (some rootA) ["A"] =
      some (({ PrevTid := "A", CurrTid := "A", EntryTid := "A" }, none), []) ∧
    ({ PrevTid := "A", CurrTid := "A", EntryTid := "A" } : TraceContext).CurrTid =
      rootA.CurrTid := by
  decide

/-- C17, amended. For a valid parent and any ID function, in a state where the identifier
the ID function returns differs from the parent's current identifier, the chain call
returns a child whose current identifier differs from the parent's, and so from the
child's own previous identifier. -/
theorem chain_freshness {σ : Type} (NewID : σ → String × σ) (s : σ) (p : TraceContext)
    (hp : IsValid (some p) = true) (hid : (NewID s).1 ≠ p.CurrTid) :
    ∃ c s1, ChainTraceContext NewID (some p) s = some ((c, none), s1) ∧
      c.CurrTid ≠ p.CurrTid ∧ c.CurrTid ≠ c.PrevTid :=
  ⟨_, _, chain_valid NewID s p hp, hid, hid⟩

theorem chain_freshness_witness :
    IsValid (some rootA) = true ∧ (listID ["B"]).1 ≠ rootA.CurrTid ∧
    ∃ c s1, ChainTraceContext listID (some rootA) ["B"] = some ((c, none), s1) ∧
      c.CurrTid ≠ rootA.CurrTid ∧ c.CurrTid ≠ c.PrevTid :=
  ⟨by decide, by decide, chain_freshness listID ["B"] rootA (by decide) (by decide)⟩

theorem chainSeq_spec {σ : Type} (NewID : σ → String × σ) (n : Nat) :
    ∀ (c : TraceContext) (s : σ) (cs : List TraceContext) (s1 : σ),
      chainSeq NewID n c s = some (cs, s1) →
      cs.length = n ∧ (∀ x ∈ cs, x.EntryTid = c.EntryTid) ∧
      List.Chain (fun a b => b.PrevTid = a.CurrTid) c cs := by
  induction n with
  | zero =>
    intro c s cs s1 h
    simp only [chainSeq, Option.some.injEq, Prod.mk.injEq] at h
    rw [← h.1]
    simp
  | succ n ih =>
    intro c s cs s1 h
    cases hv : IsValid (some c) with
    | false => simp [chainSeq, chain_invalid NewID s (some c) hv] at h
    | true =>
      simp only [chainSeq, chain_valid NewID s c hv] at h
      cases hrec : chainSeq NewID n
          { PrevTid := c.CurrTid, CurrTid := (NewID s).1, EntryTid := c.EntryTid }
          (NewID s).2 with
      | none => simp [hrec] at h
      | some r =>
        obtain ⟨cs0, s2⟩ := r
        simp only [hrec, Option.some.injEq, Prod.mk.injEq] at h
        obtain ⟨hlen, hent, hchain⟩ := ih _ _ _ _ hrec
        rw [← h.1]
        refine ⟨by simp [hlen], ?_, List.Chain.cons rfl hchain⟩
        intro x hx
        rcases List.mem_cons.1 hx with hx | hx
        · rw [hx]
        · exact hent x hx

theorem chainSeq_succeeds {σ : Type} (NewID : σ → String × σ)
    (hid : ∀ s, (NewID s).1 ≠ "") (n : Nat) :
    ∀ (c : TraceContext) (s : σ), IsValid (some c) = true →
      ∃ cs s1, chainSeq NewID n c s = some (cs, s1) := by
  induction n with
  | zero => intro c s _; exact ⟨[], s, rfl⟩
  | succ n ih =>
    intro c s hv
    have hc := (isValid_some_iff c).1 hv
    obtain ⟨cs, s1, h⟩ :=
      ih { PrevTid := c.CurrTid, CurrTid := (NewID s).1, EntryTid := c.EntryTid } (NewID s).2
        ((isValid_some_iff _).2 ⟨hc.1, hid s⟩)
    exact ⟨{ PrevTid := c.CurrTid, CurrTid := (NewID s).1, EntryTid := c.EntryTid } :: cs, s1,
      by simp [chainSeq, chain_valid NewID s c hv, h]⟩

/-- C18. Entry identifier constant across the chain: for the root `r` returned by
`NewTraceContext` and any run of `n` successful chain calls starting from `r`, each on the
identity returned by the call before, whatever identifiers the ID function returns: the run
returns `n` identities, each with the entry identifier of `r`, which is also the current
identifier of `r`, and each with the current identifier of its predecessor (`r` for the
first) as its previous identifier. -/
theorem entry_constant {σ : Type} (NewID : σ → String × σ) (s : σ) (n : Nat)
    (cs : List TraceContext) (s1 : σ)
    (h : chainSeq NewID n (NewTraceContext NewID s).1 (NewTraceContext NewID s).2 =
      some (cs, s1)) :
    cs.length = n ∧
    (NewTraceContext NewID s).1.EntryTid = (NewTraceContext NewID s).1.CurrTid ∧
    (∀ c ∈ cs, c.EntryTid = (NewTraceContext NewID s).1.EntryTid) ∧
    List.Chain (fun a b => b.PrevTid = a.CurrTid) (NewTraceContext NewID s).1 cs := by
  obtain ⟨hlen, hent, hchain⟩ := chainSeq_spec NewID n _ _ _ _ h
  exact ⟨hlen, rfl, hent, hchain⟩

theorem entry_constant_witness :
    chainSeq listID 2 (NewTraceContext listID ["A", "B", "C"]).1
        (NewTraceContext listID ["A", "B", "C"]).2 =
      some ([{ PrevTid := "A", CurrTid := "B", EntryTid := "A" },
             { PrevTid := "B", CurrTid := "C", EntryTid := "A" }], []) ∧
    (∀ c ∈ [({ PrevTid := "A", CurrTid := "B", EntryTid := "A" } : TraceContext),
             { PrevTid := "B", CurrTid := "C", EntryTid := "A" }],
      c.EntryTid = (NewTraceContext listID ["A", "B", "C"]).1.EntryTid) :=
  ⟨by decide,
    (entry_constant listID ["A", "B", "C"] 2
      [{ PrevTid := "A", CurrTid := "B", EntryTid := "A" },
       { PrevTid := "B", CurrTid := "C", EntryTid := "A" }] [] (by decide)).2.2.1⟩

/-- C19. Frame of `SetHeader` on a populated header map: for every identity and every
allocated header map, `SetHeader` leaves every key other than the three header names bound
as it was; binds `X-Curr-Tid` and `X-Entry-Tid` to one value each, whatever they held; and
with an empty `PrevTid` leaves the `X-Prev-Tid` entry as it was. Parsing the map afterwards
gives the identity's `CurrTid`, its `EntryTid` when that is non-empty, and, with an empty
`PrevTid`, the first value the map already held under `X-Prev-Tid`. -/
theorem setHeader_frame (b : TraceContext) (m : HeaderMap) :
    ∃ h1, SetHeader (some b) (Header.alloc m) = some h1 ∧
      (∀ k, k ≠ XCurrTid → k ≠ XEntryTid → k ≠ XPrevTid → h1.lookup k = m k) ∧
      h1.lookup XCurrTid = some [b.CurrTid] ∧
      h1.lookup XEntryTid = some [if b.EntryTid = "" then b.CurrTid else b.EntryTid] ∧
      (b.PrevTid = "" → h1.lookup XPrevTid = m XPrevTid) ∧
      (ExtractTraceContextFromHeader h1).CurrTid = b.CurrTid ∧
      (b.EntryTid ≠ "" → (ExtractTraceContextFromHeader h1).EntryTid = b.EntryTid) ∧
      (b.PrevTid = "" →
        (ExtractTraceContextFromHeader h1).PrevTid = specHeaderValue (m XPrevTid)) := by
  refine ⟨_, setHeader_alloc b m, ?_, ?_, ?_, ?_, ?_, ?_, ?_⟩
  · intro k h1 h2 h3
    simp [Header.lookup, h1, h2, h3]
  · simp [Header.lookup]
  · simp [Header.lookup, XEntryTid_ne_XCurrTid]
  · intro hp
    simp [Header.lookup, hp, XPrevTid_ne_XCurrTid, XPrevTid_ne_XEntryTid]
  · simp [extract_eq, Header.lookup, specHeaderValue]
  · intro he
    simp [extract_eq, Header.lookup, specHeaderValue, he, XEntryTid_ne_XCurrTid]
  · intro hp
    simp [extract_eq, Header.lookup, hp, XPrevTid_ne_XCurrTid, XPrevTid_ne_XEntryTid]

theorem setHeader_frame_witness :
    rootA.PrevTid = "" ∧ rootA.EntryTid ≠ "" ∧
    ∃ h1, SetHeader (some rootA) (Header.alloc staleMap) = some h1 ∧
      h1.lookup "Accept" = some ["*"] ∧
      h1.lookup XCurrTid = some ["A"] ∧
      h1.lookup XPrevTid = some ["old"] ∧
      ExtractTraceContextFromHeader h1 = { PrevTid := "old", CurrTid := "A", EntryTid := "A" } := by
  obtain ⟨h1, hs, hk, hc, _, hp, h2, h3, h4⟩ := setHeader_frame rootA staleMap
  refine ⟨rfl, by decide, h1, hs, ?_, hc, ?_, ?_⟩
  · rw [hk "Accept" (by decide) (by decide) (by decide)]; decide
  · rw [hp rfl]; decide
  · have e2 := h2
    have e3 := h3 (by decide)
    have e4 := h4 rfl
    cases hx : ExtractTraceContextFromHeader h1 with
    | mk prev curr entry =>
      rw [hx] at e2 e3 e4
      simp only at e2 e3 e4
      rw [e2, e3, e4]
      decide

/-! ## Letter case of header names -/

theorem upper_bounds (a : Char) (h : a.isUpper = true) : 65 ≤ a.toNat ∧ a.toNat ≤ 90 := by
  simp only [Char.isUpper, Bool.and_eq_true, decide_eq_true_eq] at h
  exact ⟨h.1, h.2⟩

theorem upper_induct (P : Char → Prop) (hP : ∀ n, 65 ≤ n → n ≤ 90 → P (Char.ofNat n))
    (a : Char) (h : a.isUpper = true) : P a := by
  have hb := upper_bounds a h
  have hn := hP a.toNat hb.1 hb.2
  rwa [Char.ofNat_toNat] at hn

theorem toLower_of_not_upper (a : Char) (h : a.isUpper = false) : a.toLower = a := by
  unfold Char.toLower
  simp only [Char.isUpper, Bool.and_eq_false_iff, decide_eq_false_iff_not] at h
  have hn : ¬ (a.toNat ≥ 65 ∧ a.toNat ≤ 90) := by
    rintro ⟨h1, h2⟩
    rcases h with h | h
    · exact h h1
    · exact h h2
  simp [hn]

theorem upper_facts (a : Char) (h : a.isUpper = true) :
    a.toLower.toUpper = a ∧ validHeaderFieldByte a.toLower = validHeaderFieldByte a ∧
    ∀ u, foldChar u a.toLower = foldChar u a := by
  refine upper_induct
    (fun a => a.toLower.toUpper = a ∧ validHeaderFieldByte a.toLower = validHeaderFieldByte a ∧
      ∀ u, foldChar u a.toLower = foldChar u a) ?_ a h
  intro n h1 h2
  interval_cases n <;> decide

theorem toLower_eq_cases (a b : Char) (h : a.toLower = b.toLower) :
    a = b ∨ (a.isUpper = true ∧ b = a.toLower) ∨ (b.isUpper = true ∧ a = b.toLower) := by
  cases ha : a.isUpper <;> cases hb : b.isUpper
  · left
    rw [toLower_of_not_upper a ha, toLower_of_not_upper b hb] at h
    exact h
  · right; right
    rw [toLower_of_not_upper a ha] at h
    exact ⟨rfl, h⟩
  · right; left
    rw [toLower_of_not_upper b hb] at h
    exact ⟨rfl, h.symm⟩
  · left
    rw [← (upper_facts a ha).1, ← (upper_facts b hb).1, h]

theorem fold_invariant (a b : Char) (h : a.toLower = b.toLower) :
    validHeaderFieldByte a = validHeaderFieldByte b ∧ ∀ u, foldChar u a = foldChar u b := by
  rcases toLower_eq_cases a b h with rfl | ⟨ha, rfl⟩ | ⟨hb, rfl⟩
  · exact ⟨rfl, fun _ => rfl⟩
  · exact ⟨(upper_facts a ha).2.1.symm, fun u => ((upper_facts a ha).2.2 u).symm⟩
  · exact ⟨(upper_facts b hb).2.1, (upper_facts b hb).2.2⟩

theorem canonicalLoop_invariant (k : List Char) :
    ∀ (n : List Char) (u : Bool), k.map Char.toLower = n.map Char.toLower →
      canonicalLoop u k = canonicalLoop u n ∧
      k.all validHeaderFieldByte = n.all validHeaderFieldByte := by
  induction k with
  | nil =>
    intro n u h
    cases n with
    | nil => exact ⟨rfl, rfl⟩
    | cons b bs => simp at h
  | cons a as ih =>
    intro n u h
    cases n with
    | nil => simp at h
    | cons b bs =>
      simp only [List.map_cons, List.cons.injEq] at h
      obtain ⟨hv, hf⟩ := fold_invariant a b h.1
      have hf := hf u
      simp only [foldChar] at hf
      simp only [canonicalLoop, List.all_cons, hv, hf]
      exact ⟨by rw [(ih bs _ h.2).1], by rw [(ih bs true h.2).2]⟩

/-- A letter-case variant of a canonical header name has that name as its canonical form. -/
theorem canonical_of_caseVariant (k n : String) (h : caseVariant k n = true)
    (hn : CanonicalMIMEHeaderKey n = n) (hv : n.data.all validHeaderFieldByte = true) :
    CanonicalMIMEHeaderKey k = n := by
  have h0 : k.data.map Char.toLower = n.data.map Char.toLower := by
    simpa [caseVariant] using h
  obtain ⟨h1, h2⟩ := canonicalLoop_invariant k.data n.data true h0
  have hk : CanonicalMIMEHeaderKey k = CanonicalMIMEHeaderKey n := by
    simp only [CanonicalMIMEHeaderKey, h1, h2, hv, if_true]
  rw [hk, hn]

theorem extract_after_set (m : HeaderMap) (k v n : String) (hk : CanonicalMIMEHeaderKey k = n)
    (hn : CanonicalMIMEHeaderKey n = n) :
    ∃ h1, Header.Set (Header.alloc m) k v = some h1 ∧ h1.lookup n = some [v] ∧
      h1.Get n = v :=
  ⟨_, rfl, by simp [Header.lookup, hk], by simp [Header.Get, hk, hn]⟩

/-- C16, as stated, fails: a header map that holds the value `v` under the key
`x-curr-tid`, a letter-case variant of `X-Curr-Tid`, is parsed to an identity whose
`CurrTid` is empty. -/
theorem case_insensitive_counterexample :
    caseVariant "x-curr-tid" XCurrTid = true ∧
    lowerCurrHeader.lookup "x-curr-tid" = some ["v"] ∧
    (ExtractTraceContextFromHeader lowerCurrHeader).CurrTid = "" := by
  decide

/-- C16, amended. For every allocated header map, every letter-case variant `k` of one of
the names `X-Curr-Tid`, `X-Prev-Tid`, `X-Entry-Tid` and every value `v`: the canonical form
of `k` is that name, so after `Header.Set` with the key `k` and the value `v` the map holds
`v` under the name itself and `ExtractTraceContextFromHeader` returns `v` in the
corresponding field. -/
theorem case_insensitive_set (m : HeaderMap) (k v : String) :
    (caseVariant k XCurrTid = true →
      CanonicalMIMEHeaderKey k = XCurrTid ∧
      ∃ h1, Header.Set (Header.alloc m) k v = some h1 ∧
        (ExtractTraceContextFromHeader h1).CurrTid = v) ∧
    (caseVariant k XPrevTid = true →
      CanonicalMIMEHeaderKey k = XPrevTid ∧
      ∃ h1, Header.Set (Header.alloc m) k v = some h1 ∧
        (ExtractTraceContextFromHeader h1).PrevTid = v) ∧
    (caseVariant k XEntryTid = true →
      CanonicalMIMEHeaderKey k = XEntryTid ∧
      ∃ h1, Header.Set (Header.alloc m) k v = some h1 ∧
        (ExtractTraceContextFromHeader h1).EntryTid = v) := by
  refine ⟨fun h => ?_, fun h => ?_, fun h => ?_⟩
  · have hk := canonical_of_caseVariant k XCurrTid h canonical_XCurrTid (by decide)
    obtain ⟨h1, hs, _, hg⟩ := extract_after_set m k v XCurrTid hk canonical_XCurrTid
    exact ⟨hk, h1, hs, hg⟩
  · have hk := canonical_of_caseVariant k XPrevTid h canonical_XPrevTid (by decide)
    obtain ⟨h1, hs, _, hg⟩ := extract_after_set m k v XPrevTid hk canonical_XPrevTid
    exact ⟨hk, h1, hs, hg⟩
  · have hk := canonical_of_caseVariant k XEntryTid h canonical_XEntryTid (by decide)
    obtain ⟨h1, hs, _, hg⟩ := extract_after_set m k v XEntryTid hk canonical_XEntryTid
    exact ⟨hk, h1, hs, hg⟩

theorem case_insensitive_set_witness :
    caseVariant "x-curr-tid" XCurrTid = true ∧
    CanonicalMIMEHeaderKey "x-curr-tid" = XCurrTid ∧
    ∃ h1, Header.Set (Header.alloc (fun _ => none)) "x-curr-tid" "v" = some h1 ∧
      (ExtractTraceContextFromHeader h1).CurrTid = "v" :=
  ⟨by decide, (case_insensitive_set (fun _ => none) "x-curr-tid" "v").1 (by decide)⟩

end TraceContext
